import Mathlib

/-!
# Verification of the loan-calculator amortization engine

Shallow embedding of the core of `app.py` (the EMI payment formula and the
schedule-build while loop), with the Python floats modelled as exact
rationals (`ℚ`). All monetary quantities are carried at full precision, as
the source does inside the loop; the `.round(2)` applied to the dataframe
afterwards is presentation only and is not part of the core modelled here.
-/

namespace LoanCalc

/-- One row of the amortization schedule: the dict appended to `rows` at
app.py lines 82-89, with keys Period / Opening Balance / Payment /
Interest / Principal / Closing Balance. -/
structure Row where
  period : Nat
  openingBalance : ℚ
  payment : ℚ
  interest : ℚ
  principalComponent : ℚ
  closingBalance : ℚ
  deriving DecidableEq, Repr

/-- The EMI formula `payment(principal, r, n)` of app.py lines 61-64:
`A = P * r * (1+r)^n / ((1+r)^n - 1)`, with the zero-rate branch
returning `principal / n`. -/
def payment (principal r : ℚ) (n : Nat) : ℚ :=
  if r = 0 then principal / (n : ℚ)
  else principal * r * (1 + r) ^ n / ((1 + r) ^ n - 1)

/-- `scheduled_payment` of app.py line 66: the guarded call
`payment(principal, periodic_rate, periods) if principal > 0 and periods > 0
else 0.0`. -/
def scheduled_payment (principal r : ℚ) (n : Nat) : ℚ :=
  if 0 < principal ∧ 0 < n then payment principal r n else 0

/-- The outputs accumulated by the schedule-build loop of app.py lines
70-95: the `rows` list plus the running totals `total_interest` and
`total_principal`. -/
structure BuildResult where
  rows : List Row
  totalInterest : ℚ
  totalPrincipal : ℚ
  deriving DecidableEq, Repr

/-- The while loop of app.py lines 75-95, fuel-indexed: `fuel` is the
number of loop-guard iterations still allowed (`periods + 5000 - i` in the
source, where the guard is `i < periods + 5000`), `i` the current period
counter, `balance` the running balance. Each pass computes
`interest = balance * r`,
`pc = min(gross - interest, balance) if r >= 0 else gross` floored at 0,
`closing = balance - pc`, appends the row and accumulates the totals; if
`closing <= 0.01` the balance is snapped to 0 and the loop breaks (the row
keeps the unsnapped `closing`). Totals are accumulated by recursion-side
addition, which over `ℚ` agrees with the source's left-to-right `+=`. -/
def buildLoop (r gross : ℚ) : Nat → Nat → ℚ → BuildResult
  | 0, _, _ => ⟨[], 0, 0⟩
  | fuel + 1, i, balance =>
    if 0 < balance then
      let interest := balance * r
      let pc0 := if 0 ≤ r then min (gross - interest) balance else gross
      let pc := if pc0 < 0 then 0 else pc0
      let closing := balance - pc
      let row : Row := ⟨i + 1, balance, gross, interest, pc, closing⟩
      if closing ≤ 1 / 100 then
        ⟨[row], interest, pc⟩
      else
        let rest := buildLoop r gross fuel (i + 1) closing
        ⟨row :: rest.rows, interest + rest.totalInterest, pc + rest.totalPrincipal⟩
    else ⟨[], 0, 0⟩

/-- The full schedule build of app.py lines 70-95: the loop entered with
`balance = principal`, `i = 0` and the guard `i < periods + 5000`. -/
def buildSchedule (principal r : ℚ) (periods : Nat) (gross : ℚ) : BuildResult :=
  buildLoop r gross (periods + 5000) 0 principal

/-- Placeholder row used as the default of `List.getLastD` when inspecting
the last schedule row. -/
def noRow : Row := ⟨0, 0, 0, 0, 0, 0⟩

/-! ## Structural lemmas about the loop -/

/-- The loop performs at most `fuel` iterations, one row each. -/
theorem buildLoop_length_le (r g : ℚ) :
    ∀ (fuel i : Nat) (b : ℚ), (buildLoop r g fuel i b).rows.length ≤ fuel := by
  intro fuel
  induction fuel with
  | zero => intro i b; simp [buildLoop]
  | succ f ih =>
    intro i b
    simp only [buildLoop]
    by_cases hb : 0 < b
    · rw [if_pos hb]
      set pc0 := if 0 ≤ r then min (g - b * r) b else g with hpc0
      set pc := if pc0 < 0 then 0 else pc0 with hpc
      by_cases hcl : b - pc ≤ 1 / 100
      · rw [if_pos hcl]
        simp
      · rw [if_neg hcl]
        simpa using ih (i + 1) (b - pc)
    · rw [if_neg hb]
      simp

/-- A nonpositive starting balance produces no rows (loop guard
`balance > 0` fails at entry). -/
theorem buildLoop_nil_of_nonpos (r g : ℚ) (fuel i : Nat) (b : ℚ)
    (hb : ¬ 0 < b) : (buildLoop r g fuel i b).rows = [] := by
  cases fuel with
  | zero => simp [buildLoop]
  | succ f => simp [buildLoop, hb]

/-- With positive fuel and positive balance the loop emits at least one
row. -/
theorem buildLoop_ne_nil (r g : ℚ) (fuel i : Nat) (b : ℚ)
    (hfuel : 0 < fuel) (hb : 0 < b) : (buildLoop r g fuel i b).rows ≠ [] := by
  cases fuel with
  | zero => exact absurd hfuel (by simp)
  | succ f =>
    simp only [buildLoop]
    rw [if_pos hb]
    set pc0 := if 0 ≤ r then min (g - b * r) b else g with hpc0
    set pc := if pc0 < 0 then 0 else pc0 with hpc
    by_cases hcl : b - pc ≤ 1 / 100
    · rw [if_pos hcl]; simp
    · rw [if_neg hcl]; simp

/-- Every emitted row records the balance at the top of its iteration as
its opening balance, the gross payment, the interest `opening * r`, a
principal component floored at 0, and
`closing = opening - principalComponent`. -/
theorem buildLoop_row_shape (r g : ℚ) :
    ∀ (fuel i : Nat) (b : ℚ), ∀ row ∈ (buildLoop r g fuel i b).rows,
      row.payment = g ∧
      row.interest = row.openingBalance * r ∧
      0 ≤ row.principalComponent ∧
      row.closingBalance = row.openingBalance - row.principalComponent := by
  intro fuel
  induction fuel with
  | zero => intro i b row h; simp [buildLoop] at h
  | succ f ih =>
    intro i b row h
    simp only [buildLoop] at h
    by_cases hb : 0 < b
    · rw [if_pos hb] at h
      set pc0 := if 0 ≤ r then min (g - b * r) b else g with hpc0
      set pc := if pc0 < 0 then 0 else pc0 with hpc
      have hpcnn : 0 ≤ pc := by
        rw [hpc]; split
        · exact le_refl 0
        · exact le_of_not_lt (by assumption)
      by_cases hcl : b - pc ≤ 1 / 100
      · rw [if_pos hcl] at h
        simp only [List.mem_singleton] at h
        subst h
        exact ⟨rfl, rfl, hpcnn, rfl⟩
      · rw [if_neg hcl] at h
        simp only [List.mem_cons] at h
        rcases h with h | h
        · subst h
          exact ⟨rfl, rfl, hpcnn, rfl⟩
        · exact ih (i + 1) (b - pc) row h
    · rw [if_neg hb] at h
      simp at h

/-- The first emitted row (when there is one) opens at the entry
balance. -/
theorem buildLoop_head_opening (r g : ℚ) (fuel i : Nat) (b : ℚ) :
    ∀ h0 ∈ (buildLoop r g fuel i b).rows.head?, h0.openingBalance = b := by
  cases fuel with
  | zero => simp [buildLoop]
  | succ f =>
    by_cases hb : 0 < b
    · simp only [buildLoop]
      rw [if_pos hb]
      set pc0 := if 0 ≤ r then min (g - b * r) b else g with hpc0
      set pc := if pc0 < 0 then 0 else pc0 with hpc
      by_cases hcl : b - pc ≤ 1 / 100
      · rw [if_pos hcl]; simp
      · rw [if_neg hcl]; simp
    · simp [buildLoop, hb]

/-- Consecutive rows chain: each row opens at the previous row's closing
balance (the loop continues with `balance = closing_balance`; when the
snap-and-break at `closing <= 0.01` fires there is no next row). -/
theorem buildLoop_chain (r g : ℚ) :
    ∀ (fuel i : Nat) (b : ℚ),
      List.Chain' (fun a c => c.openingBalance = a.closingBalance)
        (buildLoop r g fuel i b).rows := by
  intro fuel
  induction fuel with
  | zero => intro i b; simp [buildLoop]
  | succ f ih =>
    intro i b
    simp only [buildLoop]
    by_cases hb : 0 < b
    · rw [if_pos hb]
      set pc0 := if 0 ≤ r then min (g - b * r) b else g with hpc0
      set pc := if pc0 < 0 then 0 else pc0 with hpc
      by_cases hcl : b - pc ≤ 1 / 100
      · rw [if_pos hcl]; simp
      · rw [if_neg hcl]
        refine List.chain'_cons'.2 ⟨?_, ih (i + 1) (b - pc)⟩
        intro y hy
        exact buildLoop_head_opening r g f (i + 1) (b - pc) y hy
    · rw [if_neg hb]; simp

/-- Telescoping: the accumulated `total_principal` equals the entry
balance minus the closing balance of the last emitted row (for any
default row `d` that closes at the entry balance, covering the no-row
case). -/
theorem buildLoop_totalPrincipal (r g : ℚ) :
    ∀ (fuel i : Nat) (b : ℚ) (d : Row), d.closingBalance = b →
      (buildLoop r g fuel i b).totalPrincipal
        = b - ((buildLoop r g fuel i b).rows.getLastD d).closingBalance := by
  intro fuel
  induction fuel with
  | zero =>
    intro i b d hd
    simp [buildLoop, hd]
  | succ f ih =>
    intro i b d hd
    simp only [buildLoop]
    by_cases hb : 0 < b
    · rw [if_pos hb]
      set pc0 := if 0 ≤ r then min (g - b * r) b else g with hpc0
      set pc := if pc0 < 0 then 0 else pc0 with hpc
      by_cases hcl : b - pc ≤ 1 / 100
      · rw [if_pos hcl]
        simp only [List.getLastD_cons, List.getLastD_nil]
        ring
      · rw [if_neg hcl]
        simp only [List.getLastD_cons]
        have := ih (i + 1) (b - pc) ⟨i + 1, b, g, b * r, pc, b - pc⟩ rfl
        rw [this]
        ring
    · rw [if_neg hb]
      simp [hd]

/-- Stall: while the balance stays above the snap threshold and the gross
payment stays below the accruing interest, the principal component is 0,
the balance never moves, and the loop spends all its fuel. -/
theorem buildLoop_stall (r g : ℚ) (hg : 0 ≤ g) :
    ∀ (fuel i : Nat) (b : ℚ), 1 / 100 < b → g < b * r →
      (buildLoop r g fuel i b).rows.length = fuel ∧
      ∀ row ∈ (buildLoop r g fuel i b).rows,
        row.principalComponent = 0 ∧ row.closingBalance = row.openingBalance := by
  intro fuel
  induction fuel with
  | zero => intro i b _ _; simp [buildLoop]
  | succ f ih =>
    intro i b hb100 hint
    have hb : 0 < b := lt_trans (by norm_num) hb100
    have hr : 0 ≤ r := by nlinarith
    simp only [buildLoop]
    rw [if_pos hb]
    set pc0 := if 0 ≤ r then min (g - b * r) b else g with hpc0
    have hpc0v : pc0 = g - b * r := by
      rw [hpc0, if_pos hr, min_eq_left]
      nlinarith
    have hpc0neg : pc0 < 0 := by rw [hpc0v]; linarith
    set pc := if pc0 < 0 then 0 else pc0 with hpc
    have hpcv : pc = 0 := by rw [hpc, if_pos hpc0neg]
    rw [hpcv, sub_zero]
    have hcl : ¬ b ≤ 1 / 100 := not_le.2 hb100
    rw [if_neg hcl]
    obtain ⟨hlen, hrows⟩ := ih (i + 1) b hb100 hint
    refine ⟨by simpa using hlen, ?_⟩
    intro row hrow
    simp only [List.mem_cons] at hrow
    rcases hrow with hrow | hrow
    · subst hrow; exact ⟨rfl, by simp⟩
    · exact hrows row hrow

/-- Every row except possibly the last closes strictly above the snap
threshold 0.01: the loop breaks at the first row whose closing balance is
at or below it. -/
theorem buildLoop_dropLast (r g : ℚ) :
    ∀ (fuel i : Nat) (b : ℚ), ∀ row ∈ (buildLoop r g fuel i b).rows.dropLast,
      1 / 100 < row.closingBalance := by
  intro fuel
  induction fuel with
  | zero => intro i b row h; simp [buildLoop] at h
  | succ f ih =>
    intro i b row h
    simp only [buildLoop] at h
    by_cases hb : 0 < b
    · rw [if_pos hb] at h
      set pc0 := if 0 ≤ r then min (g - b * r) b else g with hpc0
      set pc := if pc0 < 0 then 0 else pc0 with hpc
      by_cases hcl : b - pc ≤ 1 / 100
      · rw [if_pos hcl] at h
        simp at h
      · rw [if_neg hcl] at h
        rcases hrest : (buildLoop r g f (i + 1) (b - pc)).rows with _ | ⟨y, ys⟩
        · rw [hrest] at h
          simp at h
        · rw [hrest, List.dropLast_cons₂] at h
          simp only [List.mem_cons] at h
          rcases h with h | h
          · subst h
            exact lt_of_not_le hcl
          · exact ih (i + 1) (b - pc) row (by rw [hrest]; exact h)
    · rw [if_neg hb] at h
      simp at h

/-- Amortization invariant: if the entry balance `b` is exactly the
outstanding balance that the constant payment `A` amortizes in `m` more
periods at rate `r` — stated multiplicatively as
`b * (r * (1+r)^m) = A * ((1+r)^m - 1)` — and at least `m` iterations of
fuel remain, then the loop pays the loan off within `m` rows and the last
row closes in `[0, 0.01]` (exactly 0 unless the snap-and-break fires
early). -/
theorem buildLoop_amortizes (r A : ℚ) (hr : 0 < r) :
    ∀ (m fuel i : Nat) (b : ℚ), m ≤ fuel → 0 < b →
      b * (r * (1 + r) ^ m) = A * ((1 + r) ^ m - 1) →
      ∃ last, (buildLoop r A fuel i b).rows.getLast? = some last ∧
        (buildLoop r A fuel i b).rows.length ≤ m ∧
        0 ≤ last.closingBalance ∧ last.closingBalance ≤ 1 / 100 := by
  intro m
  induction m with
  | zero =>
    intro fuel i b _ hb hinv
    exfalso
    simp only [pow_zero, mul_one, sub_self, mul_zero] at hinv
    nlinarith
  | succ m ih =>
    intro fuel i b hm hb hinv
    obtain ⟨f, rfl⟩ : ∃ f, fuel = f + 1 := ⟨fuel - 1, by omega⟩
    have hq : (0:ℚ) < 1 + r := by linarith
    have hqm1 : (0:ℚ) < (1 + r) ^ (m + 1) := pow_pos hq (m + 1)
    have hqm1gt : (1:ℚ) < (1 + r) ^ (m + 1) :=
      one_lt_pow₀ (by linarith) (Nat.succ_ne_zero m)
    have hA : 0 < A := by
      nlinarith [mul_pos hb (mul_pos hr hqm1)]
    have hpos : 0 < A - b * r := by nlinarith
    have hr0 : 0 ≤ r := le_of_lt hr
    simp only [buildLoop]
    rw [if_pos hb]
    set pc0 := if 0 ≤ r then min (A - b * r) b else A with hpc0
    have hpc0v : pc0 = min (A - b * r) b := by rw [hpc0, if_pos hr0]
    have hpc0pos : 0 < pc0 := by rw [hpc0v]; exact lt_min hpos hb
    set pc := if pc0 < 0 then 0 else pc0 with hpc
    have hpcv : pc = min (A - b * r) b := by
      rw [hpc, if_neg (not_lt.2 (le_of_lt hpc0pos)), hpc0v]
    rcases le_total b (A - b * r) with hble | hble
    · have hpcb : pc = b := by rw [hpcv, min_eq_right hble]
      have hcl : b - pc ≤ 1 / 100 := by rw [hpcb]; norm_num
      rw [if_pos hcl]
      refine ⟨_, rfl, by simp, ?_, ?_⟩
      · simp only [hpcb, sub_self]; exact le_refl 0
      · simp only [hpcb, sub_self]; norm_num
    · have hpcb : pc = A - b * r := by rw [hpcv, min_eq_left hble]
      have hclosing0 : 0 ≤ b - pc := by rw [hpcb]; linarith
      have hinvnext :
          (b - pc) * (r * (1 + r) ^ m) = A * ((1 + r) ^ m - 1) := by
        rw [hpcb]
        linear_combination hinv
      by_cases hcl : b - pc ≤ 1 / 100
      · rw [if_pos hcl]
        exact ⟨_, rfl, by simp, hclosing0, hcl⟩
      · rw [if_neg hcl]
        have hclpos : 0 < b - pc := lt_trans (by norm_num) (lt_of_not_le hcl)
        obtain ⟨last, hlast, hlen, h0, h1⟩ :=
          ih f (i + 1) (b - pc) (Nat.succ_le_succ_iff.1 hm) hclpos hinvnext
        rcases hrest : (buildLoop r A f (i + 1) (b - pc)).rows with _ | ⟨y, ys⟩
        · rw [hrest] at hlast
          simp at hlast
        · rw [hrest] at hlast hlen
          refine ⟨last, ?_, ?_, h0, h1⟩
          · simp only [hrest, List.getLast?_cons_cons]
            exact hlast
          · simp only [hrest, List.length_cons]
            simpa using Nat.succ_le_succ hlen

/-- One unfolding of the loop body at a positive balance, for evaluating
the loop on concrete inputs. -/
theorem buildLoop_succ_pos (r g : ℚ) (f i : Nat) (b : ℚ) (hb : 0 < b) :
    buildLoop r g (f + 1) i b =
      (let interest := b * r
       let pc0 := if 0 ≤ r then min (g - interest) b else g
       let pc := if pc0 < 0 then 0 else pc0
       let closing := b - pc
       let row : Row := ⟨i + 1, b, g, interest, pc, closing⟩
       if closing ≤ 1 / 100 then ⟨[row], interest, pc⟩
       else
         let rest := buildLoop r g f (i + 1) closing
         ⟨row :: rest.rows, interest + rest.totalInterest, pc + rest.totalPrincipal⟩) := by
  simp only [buildLoop]
  rw [if_pos hb]

/-! ## Claim theorems -/

/-- C1: for every principal > 0, periodicRate > 0 and periods > 0, feeding
the scheduled payment computed by the payment formula back into the
schedule-build loop with zero extra prepayment pays the loan off within
`periods` rows: the final row's closing balance is 0 within the 0.01
snap/rounding tolerance, and the accumulated `totalPrincipal` equals the
original principal within 0.01. -/
theorem scheduled_payment_amortizes (P r : ℚ) (n : Nat)
    (hP : 0 < P) (hr : 0 < r) (hn : 0 < n) :
    (buildSchedule P r n (scheduled_payment P r n + 0)).rows.length ≤ n ∧
    |((buildSchedule P r n (scheduled_payment P r n + 0)).rows.getLastD
        noRow).closingBalance| ≤ 1 / 100 ∧
    |(buildSchedule P r n (scheduled_payment P r n + 0)).totalPrincipal - P|
      ≤ 1 / 100 := by
  have hguard : scheduled_payment P r n + 0 = payment P r n := by
    rw [scheduled_payment, if_pos ⟨hP, hn⟩, add_zero]
  set A := scheduled_payment P r n + 0 with hA
  have hqn1 : (1:ℚ) < (1 + r) ^ n :=
    one_lt_pow₀ (by linarith) (Nat.pos_iff_ne_zero.1 hn)
  have hne : ((1 + r) ^ n - 1 : ℚ) ≠ 0 := sub_ne_zero.2 (ne_of_gt hqn1)
  have hinv : P * (r * (1 + r) ^ n) = A * ((1 + r) ^ n - 1) := by
    rw [hguard, payment, if_neg (ne_of_gt hr)]
    field_simp
    ring
  obtain ⟨last, hlast, hlen, h0, h1⟩ :=
    buildLoop_amortizes r A hr n (n + 5000) 0 P (by omega) hP hinv
  have htp := buildLoop_totalPrincipal r A (n + 5000) 0 P ⟨0, 0, 0, 0, 0, P⟩ rfl
  refine ⟨hlen, ?_, ?_⟩
  · show |((buildLoop r A (n + 5000) 0 P).rows.getLastD noRow).closingBalance|
      ≤ 1 / 100
    rw [List.getLastD_eq_getLast?, hlast, Option.getD_some]
    exact abs_le.2 ⟨by linarith, h1⟩
  · show |(buildLoop r A (n + 5000) 0 P).totalPrincipal - P| ≤ 1 / 100
    rw [List.getLastD_eq_getLast?, hlast, Option.getD_some] at htp
    rw [htp]
    have hrw : P - last.closingBalance - P = -last.closingBalance := by ring
    rw [hrw, abs_neg]
    exact abs_le.2 ⟨by linarith, h1⟩

/-- Witness for C1 at principal 1000, rate 1/10, 2 periods. -/
theorem scheduled_payment_amortizes_witness :
    (0:ℚ) < 1000 ∧ (0:ℚ) < 1 / 10 ∧ 0 < 2 ∧
    ((buildSchedule 1000 (1/10) 2 (scheduled_payment 1000 (1/10) 2 + 0)).rows.length ≤ 2 ∧
     |((buildSchedule 1000 (1/10) 2 (scheduled_payment 1000 (1/10) 2 + 0)).rows.getLastD
         noRow).closingBalance| ≤ 1 / 100 ∧
     |(buildSchedule 1000 (1/10) 2 (scheduled_payment 1000 (1/10) 2 + 0)).totalPrincipal
         - 1000| ≤ 1 / 100) :=
  ⟨by norm_num, by norm_num, by norm_num,
   scheduled_payment_amortizes 1000 (1/10) 2 (by norm_num) (by norm_num) (by norm_num)⟩

/-- C2: in every schedule, each row closes at `opening - principalComponent`,
the first row opens at the principal, and each subsequent row opens at the
previous row's closing balance. -/
theorem schedule_balance_invariants (P r : ℚ) (n : Nat) (g : ℚ)
    (_hP : 0 ≤ P) (_hr : 0 ≤ r) (_hg : 0 ≤ g) :
    (∀ row ∈ (buildSchedule P r n g).rows,
        row.closingBalance = row.openingBalance - row.principalComponent) ∧
    (∀ h0 ∈ (buildSchedule P r n g).rows.head?, h0.openingBalance = P) ∧
    List.Chain' (fun a c => c.openingBalance = a.closingBalance)
      (buildSchedule P r n g).rows :=
  ⟨fun row h => (buildLoop_row_shape r g (n + 5000) 0 P row h).2.2.2,
   buildLoop_head_opening r g (n + 5000) 0 P,
   buildLoop_chain r g (n + 5000) 0 P⟩

/-- Witness for C2 at principal 10, rate 0, 1 period, gross payment 10. -/
theorem schedule_balance_invariants_witness :
    (0:ℚ) ≤ 10 ∧ (0:ℚ) ≤ 0 ∧ (0:ℚ) ≤ 10 ∧
    ((∀ row ∈ (buildSchedule 10 0 1 10).rows,
        row.closingBalance = row.openingBalance - row.principalComponent) ∧
     (∀ h0 ∈ (buildSchedule 10 0 1 10).rows.head?, h0.openingBalance = 10) ∧
     List.Chain' (fun a c => c.openingBalance = a.closingBalance)
       (buildSchedule 10 0 1 10).rows) :=
  ⟨by norm_num, by norm_num, by norm_num,
   schedule_balance_invariants 10 0 1 10 (by norm_num) (by norm_num) (by norm_num)⟩

/-- C3: the loop can never emit more than `periods + 5000` rows, whatever
the inputs: the guard `i < periods + 5000` bounds the iteration count. -/
theorem schedule_length_le_cap (P r : ℚ) (n : Nat) (g : ℚ) :
    (buildSchedule P r n g).rows.length ≤ n + 5000 :=
  buildLoop_length_le r g (n + 5000) 0 P

/-- C4: with zero periodic rate (and a positive principal and period
count) the scheduled payment is exactly `principal / periods`. -/
theorem scheduled_payment_zero_rate (P : ℚ) (n : Nat)
    (hP : 0 < P) (hn : 0 < n) :
    scheduled_payment P 0 n = P / (n : ℚ) := by
  rw [scheduled_payment, if_pos ⟨hP, hn⟩, payment, if_pos rfl]

/-- Witness for C4 at principal 100 over 12 periods. -/
theorem scheduled_payment_zero_rate_witness :
    (0:ℚ) < 100 ∧ 0 < 12 ∧
    scheduled_payment 100 0 12 = 100 / ((12 : Nat) : ℚ) :=
  ⟨by norm_num, by norm_num,
   scheduled_payment_zero_rate 100 12 (by norm_num) (by norm_num)⟩

/-- C5 counterexample: at principal 1/200, rate 0, periods 0 and zero
extra prepayment the scheduled payment is 0 as claimed, but the schedule
is NOT empty — the loop guard `balance > 0 and i < periods + 5000` still
admits iterations (the cap is 5000, not 0), so a row is emitted. -/
theorem schedule_empty_cx :
    ¬ (scheduled_payment (1/200) 0 0 = 0 ∧
       (buildSchedule (1/200) 0 0 (scheduled_payment (1/200) 0 0 + 0)).rows = []) := by
  have hsp : scheduled_payment (1/200) 0 0 = 0 := by
    rw [scheduled_payment, if_neg]
    rintro ⟨-, h⟩
    exact absurd h (lt_irrefl 0)
  have hrows :
      (buildSchedule (1/200) 0 0 (scheduled_payment (1/200) 0 0 + 0)).rows
        = [⟨1, 1/200, 0, 0, 0, 1/200⟩] := by
    rw [hsp]
    show (buildLoop 0 ((0:ℚ) + 0) (0 + 5000) 0 (1/200)).rows = _
    rw [show (0 + 5000 : Nat) = 4999 + 1 from by norm_num]
    rw [buildLoop_succ_pos 0 ((0:ℚ) + 0) 4999 0 (1/200) (by norm_num)]
    norm_num [min_def]
  rintro ⟨-, hempty⟩
  rw [hrows] at hempty
  exact absurd hempty (by simp)

/-- C5 amended: `principal == 0` or `periods == 0` (with zero extra
prepayment) makes the scheduled payment 0, and the schedule is empty when
`principal == 0`; when `principal > 0` (even with `periods == 0`) the
schedule is nonempty, because the iteration cap `periods + 5000` is
positive. -/
theorem scheduled_payment_degenerate (P r : ℚ) (n : Nat)
    (h : P = 0 ∨ n = 0) :
    scheduled_payment P r n = 0 ∧
    (P = 0 → (buildSchedule P r n (scheduled_payment P r n + 0)).rows = []) ∧
    (0 < P → (buildSchedule P r n (scheduled_payment P r n + 0)).rows ≠ []) := by
  refine ⟨?_, ?_, ?_⟩
  · rw [scheduled_payment, if_neg]
    rintro ⟨hP, hn⟩
    rcases h with h | h
    · exact absurd hP (by rw [h]; exact lt_irrefl 0)
    · exact absurd hn (by rw [h]; exact lt_irrefl 0)
  · intro hP
    subst hP
    exact buildLoop_nil_of_nonpos _ _ _ _ _ (lt_irrefl 0)
  · intro hP
    exact buildLoop_ne_nil _ _ _ _ _ (by omega) hP

/-- Witness for the amended C5 at principal 1/200, rate 0, periods 0. -/
theorem scheduled_payment_degenerate_witness :
    ((1/200 : ℚ) = 0 ∨ (0 : Nat) = 0) ∧
    (scheduled_payment (1/200) 0 0 = 0 ∧
     ((1/200 : ℚ) = 0 →
       (buildSchedule (1/200) 0 0 (scheduled_payment (1/200) 0 0 + 0)).rows = []) ∧
     ((0:ℚ) < 1/200 →
       (buildSchedule (1/200) 0 0 (scheduled_payment (1/200) 0 0 + 0)).rows ≠ [])) :=
  ⟨by norm_num, scheduled_payment_degenerate (1/200) 0 0 (by norm_num)⟩

/-- C6 counterexample: at principal 1, rate 0, 1 period and gross payment
124/125 the only row's closing balance is 1/125 = 0.008 ≤ 0.01 yet it is
stored unsnapped (nonzero): the source snaps the loop variable `balance`
to 0 after appending the row, so the row keeps `opening - principal`. -/
theorem snap_rows_cx :
    ¬ (∀ row ∈ (buildSchedule 1 0 1 (124/125)).rows,
        row.closingBalance ≤ 1 / 100 → row.closingBalance = 0) := by
  intro hall
  have hrows : (buildSchedule 1 0 1 (124/125)).rows
      = [⟨1, 1, 124/125, 0, 124/125, 1/125⟩] := by
    show (buildLoop 0 (124/125) (1 + 5000) 0 1).rows = _
    rw [show (1 + 5000 : Nat) = 5000 + 1 from by norm_num]
    rw [buildLoop_succ_pos 0 (124/125) 5000 0 1 (by norm_num)]
    norm_num [min_def]
  have hzero := hall ⟨1, 1, 124/125, 0, 124/125, 1/125⟩ (by rw [hrows]; simp)
  norm_num at hzero

/-- C6 amended: once a row's closing balance drops to ≤ 0.01 the loop
snaps the running balance to 0 and terminates, so every row except the
last closes strictly above 0.01; but the row itself stores the unsnapped
value `openingBalance - principalComponent`, which may be any value in
[0, 0.01] rather than exactly 0. -/
theorem snap_terminates_schedule (P r : ℚ) (n : Nat) (g : ℚ) :
    (∀ row ∈ (buildSchedule P r n g).rows.dropLast,
        1 / 100 < row.closingBalance) ∧
    ∀ row ∈ (buildSchedule P r n g).rows,
      row.closingBalance = row.openingBalance - row.principalComponent :=
  ⟨buildLoop_dropLast r g (n + 5000) 0 P,
   fun row h => (buildLoop_row_shape r g (n + 5000) 0 P row h).2.2.2⟩

/-- Witness for the amended C6 at principal 1, rate 0, 1 period, gross
payment 124/125. -/
theorem snap_terminates_schedule_witness :
    (∀ row ∈ (buildSchedule 1 0 1 (124/125)).rows.dropLast,
        1 / 100 < row.closingBalance) ∧
    ∀ row ∈ (buildSchedule 1 0 1 (124/125)).rows,
      row.closingBalance = row.openingBalance - row.principalComponent :=
  snap_terminates_schedule 1 0 1 (124/125)

/-- C7 counterexample: principal 1/200 with rate 10 and gross payment 0
(strictly below the first period's interest 1/20) does NOT produce
`periods + 5000` rows: the balance 1/200 is already at or below the snap
threshold 0.01, so the break fires on the very first row and the schedule
has length 1, not 0 + 5000. -/
theorem stall_cap_cx :
    (0:ℚ) < 1/200 ∧ (0:ℚ) < (1/200) * 10 ∧
    (buildSchedule (1/200) 10 0 0).rows.length ≠ 0 + 5000 := by
  refine ⟨by norm_num, by norm_num, ?_⟩
  have hrows : (buildSchedule (1/200) 10 0 0).rows
      = [⟨1, 1/200, 0, 1/20, 0, 1/200⟩] := by
    show (buildLoop 10 0 (0 + 5000) 0 (1/200)).rows = _
    rw [show (0 + 5000 : Nat) = 4999 + 1 from by norm_num]
    rw [buildLoop_succ_pos 10 0 4999 0 (1/200) (by norm_num)]
    norm_num [min_def]
  rw [hrows]
  norm_num

/-- C7 amended: for a principal strictly above the snap threshold 0.01 and
a nonnegative gross payment strictly below the first period's interest
`principal * rate`, the schedule runs to exactly `periods + 5000` rows,
every row has zero principal component, and the balance never moves
(closing equals opening in every row). -/
theorem stall_runs_to_cap (P r : ℚ) (n : Nat) (g : ℚ)
    (hP : 1 / 100 < P) (hg : 0 ≤ g) (hlt : g < P * r) :
    (buildSchedule P r n g).rows.length = n + 5000 ∧
    ∀ row ∈ (buildSchedule P r n g).rows,
      row.principalComponent = 0 ∧ row.closingBalance = row.openingBalance :=
  buildLoop_stall r g hg (n + 5000) 0 P hP hlt

/-- Witness for the amended C7 at principal 1, rate 1, 0 periods, gross
payment 0. -/
theorem stall_runs_to_cap_witness :
    (1/100 : ℚ) < 1 ∧ (0:ℚ) ≤ 0 ∧ (0:ℚ) < 1 * 1 ∧
    ((buildSchedule 1 1 0 0).rows.length = 0 + 5000 ∧
     ∀ row ∈ (buildSchedule 1 1 0 0).rows,
       row.principalComponent = 0 ∧ row.closingBalance = row.openingBalance) :=
  ⟨by norm_num, by norm_num, by norm_num,
   stall_runs_to_cap 1 1 0 0 (by norm_num) (by norm_num) (by norm_num)⟩

/-- C8: in every row the principal component is nonnegative (it is floored
at 0), hence the closing balance never exceeds the opening balance. -/
theorem schedule_monotone (P r : ℚ) (n : Nat) (g : ℚ)
    (_hP : 0 ≤ P) (_hr : 0 ≤ r) (_hg : 0 ≤ g) :
    ∀ row ∈ (buildSchedule P r n g).rows,
      0 ≤ row.principalComponent ∧ row.closingBalance ≤ row.openingBalance := by
  intro row h
  obtain ⟨-, -, hpc, hcb⟩ := buildLoop_row_shape r g (n + 5000) 0 P row h
  exact ⟨hpc, by rw [hcb]; linarith⟩

/-- Witness for C8 at principal 10, rate 0, 1 period, gross payment 3. -/
theorem schedule_monotone_witness :
    (0:ℚ) ≤ 10 ∧ (0:ℚ) ≤ 0 ∧ (0:ℚ) ≤ 3 ∧
    ∀ row ∈ (buildSchedule 10 0 1 3).rows,
      0 ≤ row.principalComponent ∧ row.closingBalance ≤ row.openingBalance :=
  ⟨by norm_num, by norm_num, by norm_num,
   schedule_monotone 10 0 1 3 (by norm_num) (by norm_num) (by norm_num)⟩

/-- C9: the payment computation is total and both divisions are safe when
reached: under the guard `principal > 0 and periods > 0` the scheduled
payment is the unguarded formula, the zero-rate branch divides by the
nonzero `periods`, and the nonzero-rate branch divides by the nonzero
`(1+r)^n - 1`. -/
theorem payment_divisors_nonzero (P r : ℚ) (n : Nat)
    (hr : 0 ≤ r) (hguard : 0 < P ∧ 0 < n) :
    scheduled_payment P r n = payment P r n ∧
    (r = 0 → ((n : ℚ) ≠ 0)) ∧
    (r ≠ 0 → ((1 + r) ^ n - 1 : ℚ) ≠ 0) := by
  refine ⟨by rw [scheduled_payment, if_pos hguard], ?_, ?_⟩
  · intro _
    exact Nat.cast_ne_zero.2 (Nat.pos_iff_ne_zero.1 hguard.2)
  · intro hne
    have hrpos : 0 < r := lt_of_le_of_ne hr (Ne.symm hne)
    have h1 : (1:ℚ) < (1 + r) ^ n :=
      one_lt_pow₀ (by linarith) (Nat.pos_iff_ne_zero.1 hguard.2)
    exact sub_ne_zero.2 (ne_of_gt h1)

/-- Witness for C9 at principal 5, rate 1, 3 periods. -/
theorem payment_divisors_nonzero_witness :
    (0:ℚ) ≤ 1 ∧ ((0:ℚ) < 5 ∧ 0 < 3) ∧
    (scheduled_payment 5 1 3 = payment 5 1 3 ∧
     ((1:ℚ) = 0 → (((3:Nat) : ℚ) ≠ 0)) ∧
     ((1:ℚ) ≠ 0 → ((1 + 1) ^ (3:Nat) - 1 : ℚ) ≠ 0)) :=
  ⟨by norm_num, ⟨by norm_num, by norm_num⟩,
   payment_divisors_nonzero 5 1 3 (by norm_num) ⟨by norm_num, by norm_num⟩⟩

/-- C10: the schedule is empty exactly when the principal is 0; with a
positive principal the loop emits at least one row even at `periods = 0`,
because the cap `periods + 5000` is positive. -/
theorem schedule_empty_iff (P r : ℚ) (n : Nat) (g : ℚ) (hP : 0 ≤ P) :
    (buildSchedule P r n g).rows = [] ↔ P = 0 := by
  constructor
  · intro h
    by_contra hne
    exact buildLoop_ne_nil r g (n + 5000) 0 P (by omega)
      (lt_of_le_of_ne hP (Ne.symm hne)) h
  · intro h
    subst h
    exact buildLoop_nil_of_nonpos r g (n + 5000) 0 0 (lt_irrefl 0)

/-- Witness for C10 at principal 7, rate 0, 0 periods, gross payment 0. -/
theorem schedule_empty_iff_witness :
    (0:ℚ) ≤ 7 ∧ ((buildSchedule 7 0 0 0).rows = [] ↔ (7:ℚ) = 0) :=
  ⟨by norm_num, schedule_empty_iff 7 0 0 0 (by norm_num)⟩

end LoanCalc
